import Mathlib

/-!
A shallow embedding of `src/pygit2.c` (the pygit2 extension module: Python
bindings over the early libgit2 object model), together with proofs of the
specification's claims about it.

Python values reaching the C entry points are modelled by `PyValue`
(a str, an int, or some other object identified by its type name); Python
exceptions raised by the C code are modelled by `PyErr`.  Machine integers
(`long` indices, `size_t` entry counts) are modelled by unbounded `Int`/`Nat`:
the claims under study are about range logic, not word-size overflow.

Functions of the external libgit2 library (`git_oid_mkstr`, `git_oid_fmt`,
the `git_tree_*` entry operations, `git_tag_*`) are not part of this
repository's source; each such definition is modelled from the spec and says
so in its doc comment.  Everything else is translated line by line from
`src/pygit2.c`.
-/

namespace Pygit2

/-- A Python value as seen by the C API: a `str`, an `int` (Python 2 `PyInt`,
a machine `long`, modelled unbounded), or any other object, of which only the
type name is relevant (used in error messages). -/
inductive PyValue where
  | str (s : String)
  | int (i : Int)
  | other (tyName : String)
deriving DecidableEq, Repr

/-- The Python-level type name, as `ob_type->tp_name` is used in error
messages by `Error_set_py_str` and others. -/
def pyTypeName : PyValue → String
  | .str _ => "str"
  | .int _ => "int"
  | .other ty => ty

/-- A Python exception raised by the code in `src/pygit2.c`. -/
inductive PyErr where
  | typeError (msg : String)
  | valueError (msg : String)
  | keyError (key : PyValue)
  | indexError (key : PyValue)
  | memoryError
  | osError
  | gitError (msg : String)
deriving DecidableEq, Repr

/-- libgit2 result codes as distinguished by `Error_set` / `Error_set_py_str`
(`GIT_ENOMEM`, `GIT_EOSERR`, `GIT_EOBJTYPE`, `GIT_ENOTOID`, `GIT_ENOTFOUND`,
`GIT_EOBJCORRUPTED`, and a generic catch-all code). -/
inductive GitCode where
  | enomem
  | eoserr
  | eobjtype
  | enotoid
  | enotfound
  | eobjcorrupted
  | generic (msg : String)
deriving DecidableEq, Repr

/-- Modelled from the spec: libgit2's `git_strerror`, the fallback message
carried verbatim into the `Generic` error. -/
def git_strerror : GitCode → String
  | .generic msg => msg
  | _ => "git error"

/-- Model of `PyObject_Repr` of a Python `str`, as interpolated into the
"Invalid hex SHA" message (modelled for quote-free text: repr wraps the text
in single quotes). -/
def pyStrRepr (s : String) : String := "\x27" ++ s ++ "\x27"

/-- Model of `PyObject_Str` of a Python value (used by the corrupted-object branch). -/
def pyStrOf : PyValue → String
  | .str s => s
  | .int i => toString i
  | .other ty => "<" ++ ty ++ " object>"

/-- Embedding of `Error_set` from `src/pygit2.c`: translate a bare libgit2 error code into
a Python exception. -/
def Error_set (err : GitCode) : PyErr :=
  match err with
  | .enomem => .memoryError
  | .eoserr => .osError
  | .eobjtype => .gitError "Invalid object type."
  | e => .gitError (git_strerror e)

/-- Embedding of `Error_set_py_str` from `src/pygit2.c`: translate a libgit2 error code
plus the offending Python value into a Python exception.  `GIT_ENOTOID` on a
non-str raises `TypeError`; on a str it raises `ValueError` carrying the
repr of the text; `GIT_ENOTFOUND` raises `KeyError` keyed by the value. -/
def Error_set_py_str (err : GitCode) (py_str : PyValue) : PyErr :=
  match err with
  | .enotoid =>
    match py_str with
    | .str s => .valueError ("Invalid hex SHA: " ++ pyStrRepr s)
    | v => .typeError ("Hex SHA must be str, not " ++ pyTypeName v)
  | .enotfound => .keyError py_str
  | .eobjcorrupted => .gitError ("Corrupted object: " ++ pyStrOf py_str)
  | e => Error_set e

/-! ## Identifier codec (modelled from the spec) -/

/-- Value of one hexadecimal digit: `0`-`9`, `a`-`f`, `A`-`F` (by code
point), or `none` for a non-hex character. -/
def hexDigitVal (c : Char) : Option Nat :=
  if 48 ≤ c.toNat ∧ c.toNat ≤ 57 then some (c.toNat - 48)
  else if 97 ≤ c.toNat ∧ c.toNat ≤ 102 then some (c.toNat - 87)
  else if 65 ≤ c.toNat ∧ c.toNat ≤ 70 then some (c.toNat - 55)
  else none

/-- The lowercase hex digit character for a value below 16. -/
def toHexDigit (v : Nat) : Char :=
  if v < 10 then Char.ofNat (48 + v) else Char.ofNat (87 + v)

/-- Parse a character list two characters (one byte) at a time; fails on a
non-hex character or an odd length. -/
def parseHexPairs : List Char → Option (List Nat)
  | [] => some []
  | [_] => none
  | c1 :: c2 :: rest =>
    match hexDigitVal c1, hexDigitVal c2, parseHexPairs rest with
    | some hi, some lo, some bs => some ((hi * 16 + lo) :: bs)
    | _, _, _ => none

/-- A 20-byte object identifier (`git_oid`: `unsigned char id[20]`). -/
structure GitOid where
  bytes : List Nat
deriving DecidableEq, Repr

/-- Well-formedness of the embedding of the fixed-size C array: exactly 20
bytes, each below 256. -/
def OidWF (oid : GitOid) : Prop :=
  oid.bytes.length = 20 ∧ ∀ b ∈ oid.bytes, b < 256

instance (oid : GitOid) : Decidable (OidWF oid) := by
  unfold OidWF; infer_instance

/-- Modelled from the spec: libgit2's `git_oid_mkstr`, the identifier parser.
It fails with `GIT_ENOTOID` unless the text is exactly 40 hexadecimal
characters (mixed case accepted). -/
def git_oid_mkstr (s : String) : Except GitCode GitOid :=
  if s.data.length = 40 then
    match parseHexPairs s.data with
    | some bs => .ok ⟨bs⟩
    | none => .error .enotoid
  else .error .enotoid

/-- Emit one byte as two lowercase hex digits. -/
def fmtByte (b : Nat) : List Char := [toHexDigit (b / 16), toHexDigit (b % 16)]

/-- Modelled from the spec: libgit2's `git_oid_fmt`, the identifier
formatter: always lowercase hex, two characters per byte. -/
def git_oid_fmt (oid : GitOid) : String :=
  ⟨(oid.bytes.map fmtByte).flatten⟩

/-- ASCII lowercasing of a string, character by character (the spec's
`lowercase`). -/
def strLower (s : String) : String := ⟨s.data.map Char.toLower⟩

/-- The sixteen lowercase hexadecimal digit characters. -/
def lowerHexChars : List Char := "0123456789abcdef".data

/-- Embedding of `py_str_to_git_oid` from `src/pygit2.c`: `PyString_AsString` fails on a
non-str (reported as `GIT_ENOTOID`); a str is handed to `git_oid_mkstr`. -/
def py_str_to_git_oid (v : PyValue) : Except GitCode GitOid :=
  match v with
  | .str s => git_oid_mkstr s
  | _ => .error .enotoid

/-! ## Tree and tree entries -/

/-- One tree entry: `(name, attributes, target id)` (`git_tree_entry`). -/
structure GitTreeEntry where
  name : String
  attributes : Int
  oid : GitOid
deriving DecidableEq, Repr

/-- A tree: an ordered sequence of entries (`git_tree`). -/
structure GitTree where
  entries : List GitTreeEntry
deriving DecidableEq, Repr

/-- Modelled from the spec: libgit2's `git_tree_entrycount`. -/
def git_tree_entrycount (t : GitTree) : Nat := t.entries.length

/-- Modelled from the spec: libgit2's `git_tree_entry_byname` — the entry
with that exact name, or NULL. -/
def git_tree_entry_byname (t : GitTree) (n : String) : Option GitTreeEntry :=
  t.entries.find? (fun e => e.name == n)

/-- Modelled from the spec: libgit2's `git_tree_entry_byindex` — the entry
at a (non-negative, in-range) position, or NULL. -/
def git_tree_entry_byindex (t : GitTree) (i : Int) : Option GitTreeEntry :=
  if h : 0 ≤ i ∧ i.toNat < t.entries.length then some (t.entries.get ⟨i.toNat, h.2⟩)
  else none

/-- Remove the first entry with the given name, or fail when none matches. -/
def removeEntryByName : List GitTreeEntry → String → Option (List GitTreeEntry)
  | [], _ => none
  | e :: rest, n =>
    if e.name == n then some rest
    else (removeEntryByName rest n).map (e :: ·)

/-- Modelled from the spec: libgit2's `git_tree_remove_entry_byname` —
removes exactly one entry matching the name, or reports an error. -/
def git_tree_remove_entry_byname (t : GitTree) (n : String) : Option GitTree :=
  (removeEntryByName t.entries n).map GitTree.mk

/-- Modelled from the spec: libgit2's `git_tree_remove_entry_byindex` —
removes the entry at an in-range position, or reports an error. -/
def git_tree_remove_entry_byindex (t : GitTree) (i : Int) : Option GitTree :=
  if 0 ≤ i ∧ i.toNat < t.entries.length then some ⟨t.entries.eraseIdx i.toNat⟩
  else none

/-- Modelled from the spec: libgit2's `git_tree_add_entry` — inserts or
appends the entry (appended here; the position is irrelevant to the claims).
The out-of-memory failure of the C allocator is not modelled. -/
def git_tree_add_entry (t : GitTree) (oid : GitOid) (name : String)
    (attributes : Int) : GitTree :=
  ⟨t.entries ++ [⟨name, attributes, oid⟩]⟩

/-- Embedding of `Tree_fix_index` from `src/pygit2.c`: bounds-check an integer index
against the entry count and rewrite a negative index to `len + index`.
Out-of-range indices raise `IndexError` carrying the original key.  (The C
function receives the index as a `PyObject`; its callers have already
checked `PyInt_Check`, so the extracted `long` is taken directly.) -/
def Tree_fix_index (self : GitTree) (index : Int) : Except PyErr Int :=
  if index ≥ (git_tree_entrycount self : Int) then .error (.indexError (.int index))
  else if index < -(git_tree_entrycount self : Int) then .error (.indexError (.int index))
  else if index < 0 then .ok ((git_tree_entrycount self : Int) + index)
  else .ok index

/-- Embedding of `Tree_getitem_by_name` from `src/pygit2.c`: exact-name lookup, raising
`KeyError` keyed by the name when absent. -/
def Tree_getitem_by_name (self : GitTree) (name : String) :
    Except PyErr GitTreeEntry :=
  match git_tree_entry_byname self name with
  | none => .error (.keyError (.str name))
  | some e => .ok e

/-- Embedding of `Tree_getitem_by_index` from `src/pygit2.c`. -/
def Tree_getitem_by_index (self : GitTree) (index : Int) :
    Except PyErr GitTreeEntry :=
  match Tree_fix_index self index with
  | .error e => .error e
  | .ok i =>
    match git_tree_entry_byindex self i with
    | none => .error (.indexError (.int index))
    | some entry => .ok entry

/-- Embedding of `Tree_getitem` from `src/pygit2.c` (`mp_subscript`): dispatch on the key
type — str by name, int by index, anything else `TypeError`. -/
def Tree_getitem (self : GitTree) (value : PyValue) : Except PyErr GitTreeEntry :=
  match value with
  | .str s => Tree_getitem_by_name self s
  | .int i => Tree_getitem_by_index self i
  | .other _ => .error (.typeError "Expected int or str for tree index.")

/-- Embedding of `Tree_delitem_by_name` from `src/pygit2.c`.  The tree is mutated in
place in C; the model returns the (possibly unchanged) tree next to the
(possible) exception. -/
def Tree_delitem_by_name (self : GitTree) (name : String) :
    Option PyErr × GitTree :=
  match git_tree_remove_entry_byname self name with
  | none => (some (.keyError (.str name)), self)
  | some t => (none, t)

/-- Embedding of `Tree_delitem_by_index` from `src/pygit2.c`. -/
def Tree_delitem_by_index (self : GitTree) (index : Int) :
    Option PyErr × GitTree :=
  match Tree_fix_index self index with
  | .error e => (some e, self)
  | .ok i =>
    match git_tree_remove_entry_byindex self i with
    | none => (some (.indexError (.int index)), self)
    | some t => (none, t)

/-- Embedding of `Tree_delitem` from `src/pygit2.c` (`mp_ass_subscript`): a present
`value` (assignment `tree[key] = value`) is rejected with `ValueError`
before the key is even inspected; deletion dispatches like `Tree_getitem`. -/
def Tree_delitem (self : GitTree) (name : PyValue) (value : Option PyValue) :
    Option PyErr × GitTree :=
  match value with
  | some _ => (some (.valueError "Cannot set TreeEntry directly; use add_entry."), self)
  | none =>
    match name with
    | .str s => Tree_delitem_by_name self s
    | .int i => Tree_delitem_by_index self i
    | .other _ => (some (.typeError "Expected int or str for tree index."), self)

/-- Embedding of `Tree_add_entry` from `src/pygit2.c`: parse the identifier text first
(`py_str_to_git_oid`), failing without touching the tree; only then add the
entry.  (`PyArg_ParseTuple("Osi")` has already typed `name` and
`attributes`; the sha argument is an arbitrary object.) -/
def Tree_add_entry (self : GitTree) (py_sha : PyValue) (name : String)
    (attributes : Int) : Option PyErr × GitTree :=
  match py_str_to_git_oid py_sha with
  | .error e => (some (Error_set_py_str e py_sha), self)
  | .ok oid => (none, git_tree_add_entry self oid name attributes)

/-! ## Repository and objects -/

/-- The discriminant of a git object. -/
inductive GitOtype where
  | commit
  | tree
  | blob
  | tag
deriving DecidableEq, Repr

/-- A raw stored object: its type tag and raw bytes. -/
structure GitRawObj where
  rtype : GitOtype
  data : List Nat
deriving DecidableEq, Repr

/-- The object database behind an open repository: a finite map from
identifier to stored object (the external store collaborator). -/
structure GitOdb where
  objects : List (GitOid × GitRawObj)
deriving DecidableEq, Repr

/-- Modelled from the spec: the store's lookup-by-id (`git_repository_lookup`
with `GIT_OBJ_ANY`): the stored object, or absent.  The store contract does
not distinguish absence from read failure; both are NULL here. -/
def git_repository_lookup (repo : GitOdb) (oid : GitOid) : Option GitRawObj :=
  (repo.objects.find? (fun p => p.1 == oid)).map Prod.snd

/-- Modelled from the spec: `git_odb_read`, the store's raw read. -/
def git_odb_read (repo : GitOdb) (oid : GitOid) : Except GitCode GitRawObj :=
  match git_repository_lookup repo oid with
  | none => .error .enotfound
  | some raw => .ok raw

/-- Embedding of `Repository_read_raw` from `src/pygit2.c`: read raw bytes and type from
the repository's database. -/
def Repository_read_raw (repo : GitOdb) (oid : GitOid) : Except GitCode GitRawObj :=
  git_odb_read repo oid

/-- The wrapper state produced by `wrap_object` plus the `own_obj` flag:
discriminant, identifier (when the underlying object has one), and whether
the wrapper owns the native object (`own_obj`; Borrowed = false). -/
structure PyObjWrap where
  otype : GitOtype
  oid : Option GitOid
  own_obj : Bool
deriving DecidableEq, Repr

/-- Embedding of `Repository_getitem` from `src/pygit2.c` (`mp_subscript`): parse the
text, look the identifier up with `GIT_OBJ_ANY`, translate an absent result
to `KeyError` keyed by the original text, and wrap a hit as a Borrowed
object (`own_obj = 0`). -/
def Repository_getitem (self : GitOdb) (value : PyValue) : Except PyErr PyObjWrap :=
  match py_str_to_git_oid value with
  | .error e => .error (Error_set_py_str e value)
  | .ok oid =>
    match git_repository_lookup self oid with
    | none => .error (Error_set_py_str .enotfound value)
    | some raw => .ok ⟨raw.rtype, some oid, false⟩

/-- The lifecycle of an `Object` wrapper as constructible through the module:
looked up from a repository (Borrowed, `Repository_getitem`), freshly
constructed (Owned, `Object_init_with_type` — no identifier yet), or an
earlier state after a successful `Object_write` assigned an identifier. -/
inductive ObjHistory where
  | fromLookup (oid : GitOid) (ty : GitOtype)
  | fresh (ty : GitOtype)
  | afterWrite (h : ObjHistory) (oid : GitOid)
deriving DecidableEq, Repr

/-- Modelled from the spec: libgit2's `git_object_id` — NULL exactly for an
in-memory object that has never been written. -/
def git_object_id : ObjHistory → Option GitOid
  | .fromLookup oid _ => some oid
  | .fresh _ => none
  | .afterWrite _ oid => some oid

/-- Whether the wrapper is Owned (constructed by a factory) rather than
Borrowed (obtained from lookup). -/
def objIsOwned : ObjHistory → Bool
  | .fromLookup _ _ => false
  | .fresh _ => true
  | .afterWrite h _ => objIsOwned h

/-- Whether the object has never been written to the store. -/
def neverWritten : ObjHistory → Bool
  | .fromLookup _ _ => false
  | .fresh _ => true
  | .afterWrite _ _ => false

/-- Embedding of `Object_get_sha` from `src/pygit2.c`: None when the object has no
identifier; otherwise the 40-character hex form. -/
def Object_get_sha (h : ObjHistory) : Option String :=
  (git_object_id h).map git_oid_fmt

/-- Embedding of `Object_read_raw` from `src/pygit2.c`: Python `None` (here `.ok none`)
for an in-memory object without an identifier; otherwise delegate to
`Repository_read_raw` at this object's identifier, translating a failure via
`Error_set_py_str` keyed by the hex sha. -/
def Object_read_raw (repo : GitOdb) (h : ObjHistory) :
    Except PyErr (Option (List Nat)) :=
  match git_object_id h with
  | none => .ok none
  | some oid =>
    match Repository_read_raw repo oid with
    | .error e => .error (Error_set_py_str e (.str (git_oid_fmt oid)))
    | .ok raw => .ok (some raw.data)

/-! ## Tags -/

/-- A handle to a git object as stored in a tag's target slot. -/
structure GitObjRef where
  otype : GitOtype
  oid : Option GitOid
deriving DecidableEq, Repr

/-- The underlying `git_tag`: its (optional) target object handle.  The
name/message/tagger fields play no role in the claims. -/
structure GitTagObj where
  target : Option GitObjRef
deriving DecidableEq, Repr

/-- Modelled from the spec: libgit2's `git_tag_target`. -/
def git_tag_target (t : GitTagObj) : Option GitObjRef := t.target

/-- Modelled from the spec: libgit2's `git_tag_set_target` — stores the
target handle (and with it the stored type enumeration). -/
def git_tag_set_target (t : GitTagObj) (o : GitObjRef) : GitTagObj :=
  { t with target := some o }

/-- Modelled from the spec: libgit2's `git_tag_type` — the stored type
enumeration of the tag's target. -/
def git_tag_type (t : GitTagObj) : Option GitOtype :=
  t.target.map GitObjRef.otype

/-- The Python-level `Tag` struct: the underlying `git_tag` plus the cached
`self->target` reference. -/
structure PyTag where
  tag : GitTagObj
  target : Option GitObjRef
deriving DecidableEq, Repr

/-- A freshly constructed Tag (`Tag_init` → `git_object_new(GIT_OBJ_TAG)`,
with `tp_alloc` zeroing `self->target`). -/
def Tag_new : PyTag := { tag := { target := none }, target := none }

/-- Embedding of `Tag_get_target` from `src/pygit2.c`: None only for a new tag with no
target set yet. -/
def Tag_get_target (self : PyTag) : Option GitObjRef :=
  git_tag_target self.tag

/-- Embedding of `Tag_get_target_type` from `src/pygit2.c`: None when `self->target` is
unset, else the underlying tag's stored type. -/
def Tag_get_target_type (self : PyTag) : Option GitOtype :=
  match self.target with
  | none => none
  | some _ => git_tag_type self.tag

/-- The argument handed to the `target` setter: either a pygit2 `Object`
instance (passing `PyObject_TypeCheck` against `ObjectType`) wrapping a git
object handle, or any other Python object. -/
inductive PyTargetArg where
  | obj (o : GitObjRef)
  | nonObj (tyName : String)
deriving DecidableEq, Repr

/-- A reference-count operation performed by the setter. -/
inductive RcOp where
  | decref (o : GitObjRef)
  | incref (o : GitObjRef)
deriving DecidableEq, Repr

/-- Embedding of `Tag_set_target` from `src/pygit2.c`: reject a non-Object argument with
`TypeError`; otherwise `Py_XDECREF` the previous target, store and
`Py_INCREF` the new one, and update the underlying tag's target.  The
emitted reference-count operations are returned next to the new state. -/
def Tag_set_target (self : PyTag) (arg : PyTargetArg) :
    Except PyErr (PyTag × List RcOp) :=
  match arg with
  | .nonObj ty =>
      .error (.typeError ("target must be pygit2.Object, not " ++ ty))
  | .obj o =>
      .ok ({ tag := git_tag_set_target self.tag o, target := some o },
           (match self.target with
            | none => []
            | some old => [RcOp.decref old]) ++ [RcOp.incref o])

/-! ## Concrete sample values, used by the witness theorems -/

/-- A valid mixed-case 40-hex identifier text. -/
def sampleHex : String := "00112233445566778899aAbBcCdDeEfF00112233"

/-- A valid all-lowercase 40-hex identifier text. -/
def sampleHexLower : String := "aaaaaaaaaaaaaaaaaaaaaaaaaaaaaaaaaaaaaaaa"

/-- A three-entry tree `[a, b, c]`. -/
def sampleTree : GitTree :=
  ⟨[⟨"a", 33188, ⟨List.replicate 20 1⟩⟩,
    ⟨"b", 33188, ⟨List.replicate 20 2⟩⟩,
    ⟨"c", 33188, ⟨List.replicate 20 3⟩⟩]⟩

/-- An empty object database. -/
def emptyOdb : GitOdb := ⟨[]⟩

/-- The exception of a failed lookup, `none` for a successful one. -/
def errOf : Except PyErr GitTreeEntry → Option PyErr
  | .ok _ => none
  | .error e => some e

/-! # Theorems -/

/-- The function `Char.ofNat` inverts `Char.toNat`. -/
theorem char_ofNat_toNat (c : Char) : Char.ofNat c.toNat = c := by
  have hv : c.toNat.isValidChar := c.valid
  apply Char.eq_of_val_eq
  simp only [Char.ofNat, hv, dif_pos, Char.ofNatAux]
  exact UInt32.eq_of_toBitVec_eq rfl

/-- A parsed hex digit is below 16 and formats back to the lowercase form of
the original character. -/
theorem hexDigit_round (c : Char) (v : Nat) (h : hexDigitVal c = some v) :
    v < 16 ∧ toHexDigit v = Char.toLower c := by
  unfold hexDigitVal at h
  split_ifs at h with h1 h2 h3
  · injection h with hv
    subst hv
    refine ⟨by omega, ?_⟩
    unfold toHexDigit Char.toLower
    rw [if_pos (by omega), if_neg (by omega)]
    have he : 48 + (c.toNat - 48) = c.toNat := by omega
    rw [he, char_ofNat_toNat]
  · injection h with hv
    subst hv
    refine ⟨by omega, ?_⟩
    unfold toHexDigit Char.toLower
    rw [if_neg (by omega), if_neg (by omega)]
    have he : 87 + (c.toNat - 87) = c.toNat := by omega
    rw [he, char_ofNat_toNat]
  · injection h with hv
    subst hv
    refine ⟨by omega, ?_⟩
    unfold toHexDigit Char.toLower
    rw [if_neg (by omega), if_pos (by omega)]
    have he : 87 + (c.toNat - 55) = c.toNat + 32 := by omega
    rw [he]

/-- Pairwise parsing round-trips through byte formatting, halves the length,
and yields bytes below 256. -/
theorem parseHexPairs_spec : ∀ (cs : List Char) (bs : List Nat),
    parseHexPairs cs = some bs →
    ((bs.map fmtByte).flatten = cs.map Char.toLower ∧ 2 * bs.length = cs.length
      ∧ ∀ b ∈ bs, b < 256) := by
  intro cs
  induction cs using parseHexPairs.induct with
  | case1 =>
    intro bs h
    simp only [parseHexPairs] at h
    injection h with h
    subst h
    simp
  | case2 c =>
    intro bs h
    simp only [parseHexPairs] at h
    exact Option.noConfusion h
  | case3 c1 c2 rest hi lo bs0 hrest hc2 hc1 ih =>
    intro bs h
    simp only [parseHexPairs, hc1, hc2, hrest] at h
    injection h with h
    subst h
    obtain ⟨ihf, ihl, ihb⟩ := ih bs0 hrest
    obtain ⟨hlt1, hcl1⟩ := hexDigit_round c1 hi hc1
    obtain ⟨hlt2, hcl2⟩ := hexDigit_round c2 lo hc2
    refine ⟨?_, ?_, ?_⟩
    · simp only [List.map_cons, List.flatten_cons, fmtByte]
      have hd : (hi * 16 + lo) / 16 = hi := by omega
      have hm : (hi * 16 + lo) % 16 = lo := by omega
      rw [hd, hm, hcl1, hcl2, ihf]
      simp
    · simp only [List.length_cons]
      omega
    · intro b hb
      rcases List.mem_cons.mp hb with hb | hb
      · subst hb; omega
      · exact ihb b hb
  | case4 c1 c2 rest hfail ih =>
    intro bs h
    simp only [parseHexPairs] at h
    exact Option.noConfusion h

/-- Pairwise parsing succeeds on any even-length all-hex character list. -/
theorem parseHexPairs_isSome : ∀ (cs : List Char), cs.length % 2 = 0 →
    (∀ c ∈ cs, (hexDigitVal c).isSome) → (parseHexPairs cs).isSome := by
  intro cs
  induction cs using parseHexPairs.induct with
  | case1 => intro _ _; simp [parseHexPairs]
  | case2 c => intro h _; simp at h
  | case3 c1 c2 rest hi lo bs0 hrest hc2 hc1 ih =>
    intro _ _
    simp [parseHexPairs, hc1, hc2, hrest]
  | case4 c1 c2 rest hfail ih =>
    intro hlen hall
    exfalso
    have h1 : (hexDigitVal c1).isSome := hall c1 (by simp)
    have h2 : (hexDigitVal c2).isSome := hall c2 (by simp)
    have h3 : (parseHexPairs rest).isSome := by
      apply ih
      · simp only [List.length_cons] at hlen ⊢
        omega
      · intro c hc
        exact hall c (by simp [hc])
    rw [Option.isSome_iff_exists] at h1 h2 h3
    obtain ⟨hi, h1⟩ := h1
    obtain ⟨lo, h2⟩ := h2
    obtain ⟨bs, h3⟩ := h3
    exact hfail hi lo bs h1 h2 h3

/-- Every character of a successfully parsed list is a hex digit. -/
theorem parseHexPairs_allHex : ∀ (cs : List Char) (bs : List Nat),
    parseHexPairs cs = some bs → ∀ c ∈ cs, (hexDigitVal c).isSome := by
  intro cs
  induction cs using parseHexPairs.induct with
  | case1 => intro bs _ c hc; simp at hc
  | case2 c =>
    intro bs h
    simp only [parseHexPairs] at h
    exact Option.noConfusion h
  | case3 c1 c2 rest hi lo bs0 hrest hc2 hc1 ih =>
    intro bs _ c hc
    rcases List.mem_cons.mp hc with hc | hc
    · subst hc; simp [hc1]
    rcases List.mem_cons.mp hc with hc | hc
    · subst hc; simp [hc2]
    · exact ih bs0 hrest c hc
  | case4 c1 c2 rest hfail ih =>
    intro bs h
    simp only [parseHexPairs] at h
    exact Option.noConfusion h

/-- Hex digit values below 16 format to lowercase hex characters. -/
theorem toHexDigit_mem (v : Nat) (h : v < 16) : toHexDigit v ∈ lowerHexChars := by
  interval_cases v <;> decide

/-- Byte formatting emits two characters per byte. -/
theorem fmtByte_flatten_length : ∀ (bs : List Nat),
    ((bs.map fmtByte).flatten).length = 2 * bs.length := by
  intro bs
  induction bs with
  | nil => simp
  | cons b rest ih =>
    simp only [List.map_cons, List.flatten_cons, List.length_append,
      List.length_cons, ih, fmtByte, List.length_nil]
    omega

/-- Byte formatting of bytes below 256 emits only lowercase hex characters. -/
theorem fmtByte_flatten_mem (bs : List Nat) (hb : ∀ b ∈ bs, b < 256) :
    ∀ c ∈ (bs.map fmtByte).flatten, c ∈ lowerHexChars := by
  intro c hc
  rw [List.mem_flatten] at hc
  obtain ⟨l, hl, hcl⟩ := hc
  rw [List.mem_map] at hl
  obtain ⟨b, hbmem, rfl⟩ := hl
  have h256 := hb b hbmem
  unfold fmtByte at hcl
  rcases List.mem_cons.mp hcl with rfl | hcl
  · exact toHexDigit_mem _ (by omega)
  rcases List.mem_cons.mp hcl with rfl | hcl
  · exact toHexDigit_mem _ (by omega)
  · simp at hcl

/-- C2: for every string of exactly 40 hexadecimal characters in any letter
case, parsing it to an identifier and formatting back yields the lowercase
form of the input; and formatting a (well-formed, 20-byte) identifier always
yields exactly 40 lowercase hex characters. -/
theorem C2_parse_format_roundtrip :
    (∀ s : String, s.data.length = 40 → (∀ c ∈ s.data, (hexDigitVal c).isSome) →
      ∃ oid, git_oid_mkstr s = .ok oid ∧ git_oid_fmt oid = strLower s)
    ∧ (∀ oid : GitOid, OidWF oid →
      (git_oid_fmt oid).data.length = 40 ∧
        ∀ c ∈ (git_oid_fmt oid).data, c ∈ lowerHexChars) := by
  constructor
  · intro s hlen hhex
    have hs : (parseHexPairs s.data).isSome :=
      parseHexPairs_isSome s.data (by omega) hhex
    rw [Option.isSome_iff_exists] at hs
    obtain ⟨bs, hbs⟩ := hs
    refine ⟨⟨bs⟩, ?_, ?_⟩
    · unfold git_oid_mkstr
      rw [if_pos hlen, hbs]
    · obtain ⟨hf, _, _⟩ := parseHexPairs_spec s.data bs hbs
      unfold git_oid_fmt strLower
      exact congrArg String.mk hf
  · intro oid hwf
    obtain ⟨h20, h256⟩ := hwf
    constructor
    · show ((oid.bytes.map fmtByte).flatten).length = 40
      rw [fmtByte_flatten_length, h20]
    · show ∀ c ∈ (oid.bytes.map fmtByte).flatten, c ∈ lowerHexChars
      exact fmtByte_flatten_mem oid.bytes h256

/-- Witness for C2 at the concrete mixed-case text `sampleHex`. -/
theorem C2_parse_format_roundtrip_witness :
    ∃ oid, git_oid_mkstr sampleHex = .ok oid ∧
      git_oid_fmt oid = strLower sampleHex :=
  C2_parse_format_roundtrip.1 sampleHex (by decide) (by decide)

/-- The parser `git_oid_mkstr` fails with `GIT_ENOTOID` on any text that is not exactly
40 hex characters. -/
theorem git_oid_mkstr_err (s : String)
    (h : ¬(s.data.length = 40 ∧ ∀ c ∈ s.data, (hexDigitVal c).isSome)) :
    git_oid_mkstr s = .error .enotoid := by
  unfold git_oid_mkstr
  by_cases hlen : s.data.length = 40
  · rw [if_pos hlen]
    cases hp : parseHexPairs s.data with
    | none => rfl
    | some bs =>
      exact absurd ⟨hlen, parseHexPairs_allHex s.data bs hp⟩ h
  · rw [if_neg hlen]

/-- C3: parsing fails with `InvalidIdentifier` whenever the input is not
exactly 40 hexadecimal characters; a non-text input is reported as a type
error, text of wrong length or with a non-hex character (at any position) as
a value error carrying the offending text. -/
theorem C3_parse_failure :
    (∀ s : String, ¬(s.data.length = 40 ∧ ∀ c ∈ s.data, (hexDigitVal c).isSome) →
      py_str_to_git_oid (.str s) = .error .enotoid
      ∧ Error_set_py_str .enotoid (.str s)
          = .valueError ("Invalid hex SHA: " ++ pyStrRepr s))
    ∧ (∀ v : PyValue, (∀ s, v ≠ .str s) →
      py_str_to_git_oid v = .error .enotoid
      ∧ Error_set_py_str .enotoid v
          = .typeError ("Hex SHA must be str, not " ++ pyTypeName v)) := by
  constructor
  · intro s hs
    exact ⟨git_oid_mkstr_err s hs, rfl⟩
  · intro v hv
    cases v with
    | str s => exact absurd rfl (hv s)
    | int i => exact ⟨rfl, rfl⟩
    | other ty => exact ⟨rfl, rfl⟩

/-- Witness for C3 at the malformed text `"xyz"` and the non-text key `5`. -/
theorem C3_parse_failure_witness :
    (py_str_to_git_oid (.str "xyz") = .error .enotoid
      ∧ Error_set_py_str .enotoid (.str "xyz")
          = .valueError ("Invalid hex SHA: " ++ pyStrRepr "xyz"))
    ∧ (py_str_to_git_oid (.int 5) = .error .enotoid
      ∧ Error_set_py_str .enotoid (.int 5)
          = .typeError ("Hex SHA must be str, not " ++ pyTypeName (.int 5))) :=
  ⟨C3_parse_failure.1 "xyz" (by decide),
   C3_parse_failure.2 (.int 5) (fun s h => PyValue.noConfusion h)⟩

/-- An in-range index passes `Tree_fix_index`, a negative one rewritten to
`len + index`. -/
theorem Tree_fix_index_in_range (t : GitTree) (i : Int)
    (h1 : -(t.entries.length : Int) ≤ i) (h2 : i < (t.entries.length : Int)) :
    Tree_fix_index t i = .ok (if i < 0 then (t.entries.length : Int) + i else i) := by
  unfold Tree_fix_index git_tree_entrycount
  rw [if_neg (by omega), if_neg (by omega)]
  split_ifs <;> rfl

/-- An out-of-range index fails `Tree_fix_index` with `IndexError` carrying
the original key. -/
theorem Tree_fix_index_out_of_range (t : GitTree) (i : Int)
    (h : (t.entries.length : Int) ≤ i ∨ i < -(t.entries.length : Int)) :
    Tree_fix_index t i = .error (.indexError (.int i)) := by
  unfold Tree_fix_index git_tree_entrycount
  rcases h with h | h
  · rw [if_pos (by omega)]
  · rw [if_neg (by omega), if_pos (by omega)]

/-- A successful `Tree_fix_index` result is a valid position. -/
theorem Tree_fix_index_ok_range (t : GitTree) (i j : Int)
    (h : Tree_fix_index t i = .ok j) :
    0 ≤ j ∧ j.toNat < t.entries.length := by
  unfold Tree_fix_index git_tree_entrycount at h
  split_ifs at h
  all_goals first
    | exact Except.noConfusion h
    | (injection h with h; omega)

/-- Value of `git_tree_entry_byindex` at a valid position. -/
theorem git_tree_entry_byindex_ok (t : GitTree) (j : Int)
    (h1 : 0 ≤ j) (h2 : j.toNat < t.entries.length) :
    git_tree_entry_byindex t j = some (t.entries.get ⟨j.toNat, h2⟩) := by
  unfold git_tree_entry_byindex
  rw [dif_pos ⟨h1, h2⟩]

/-- C1: integer indexing on a Tree of length n succeeds exactly for keys in
`[-n, n-1]`; a negative key is looked up as `n + key`; any other key fails
with `IndexError` carrying the offending key. -/
theorem C1_tree_integer_indexing (t : GitTree) :
    (∀ i : Int, (∃ e, Tree_getitem t (.int i) = .ok e) ↔
        (-(t.entries.length : Int) ≤ i ∧ i < (t.entries.length : Int)))
    ∧ (∀ i : Int, -(t.entries.length : Int) ≤ i → i < 0 →
        Tree_getitem t (.int i)
          = Tree_getitem t (.int ((t.entries.length : Int) + i)))
    ∧ (∀ i : Int, ((t.entries.length : Int) ≤ i ∨ i < -(t.entries.length : Int)) →
        Tree_getitem t (.int i) = .error (.indexError (.int i))) := by
  have hc : ∀ i : Int,
      ((t.entries.length : Int) ≤ i ∨ i < -(t.entries.length : Int)) →
      Tree_getitem t (.int i) = .error (.indexError (.int i)) := by
    intro i h
    show Tree_getitem_by_index t i = _
    unfold Tree_getitem_by_index
    rw [Tree_fix_index_out_of_range t i h]
  have hok : ∀ i : Int, -(t.entries.length : Int) ≤ i →
      i < (t.entries.length : Int) → ∃ e, Tree_getitem t (.int i) = .ok e := by
    intro i h1 h2
    show ∃ e, Tree_getitem_by_index t i = .ok e
    unfold Tree_getitem_by_index
    rw [Tree_fix_index_in_range t i h1 h2]
    have hj1 : (0 : Int) ≤ (if i < 0 then (t.entries.length : Int) + i else i) := by
      split_ifs <;> omega
    have hj2 : (if i < 0 then (t.entries.length : Int) + i else i).toNat
        < t.entries.length := by
      split_ifs <;> omega
    dsimp only
    rw [git_tree_entry_byindex_ok t _ hj1 hj2]
    exact ⟨_, rfl⟩
  refine ⟨fun i => ⟨?_, fun h => hok i h.1 h.2⟩, ?_, hc⟩
  · intro he
    by_cases hin : -(t.entries.length : Int) ≤ i ∧ i < (t.entries.length : Int)
    · exact hin
    · exfalso
      obtain ⟨e, he⟩ := he
      rw [hc i (by omega)] at he
      exact Except.noConfusion he
  · intro i h1 h2
    have hn : (0 : Int) < (t.entries.length : Int) := by omega
    show Tree_getitem_by_index t i
        = Tree_getitem_by_index t ((t.entries.length : Int) + i)
    unfold Tree_getitem_by_index
    rw [Tree_fix_index_in_range t i h1 (by omega),
      Tree_fix_index_in_range t ((t.entries.length : Int) + i) (by omega) (by omega)]
    rw [if_pos h2, if_neg (by omega)]
    dsimp only
    rw [git_tree_entry_byindex_ok t ((t.entries.length : Int) + i) (by omega) (by omega)]

/-- Witness for C1 on the three-entry `sampleTree`: `tree[-1]` succeeds and
equals `tree[3 + (-1)]`, while `tree[3]` and `tree[-4]` fail `IndexError`. -/
theorem C1_tree_integer_indexing_witness :
    (∃ e, Tree_getitem sampleTree (.int (-1)) = .ok e)
    ∧ Tree_getitem sampleTree (.int (-1))
        = Tree_getitem sampleTree (.int ((sampleTree.entries.length : Int) + (-1)))
    ∧ Tree_getitem sampleTree (.int 3) = .error (.indexError (.int 3))
    ∧ Tree_getitem sampleTree (.int (-4)) = .error (.indexError (.int (-4))) :=
  ⟨((C1_tree_integer_indexing sampleTree).1 (-1)).mpr (by decide),
   (C1_tree_integer_indexing sampleTree).2.1 (-1) (by decide) (by decide),
   (C1_tree_integer_indexing sampleTree).2.2 3 (Or.inl (by decide)),
   (C1_tree_integer_indexing sampleTree).2.2 (-4) (Or.inr (by decide))⟩

/-- C10: a key that is neither a str nor an int makes both indexing and
deletion fail with the `TypeError` "Expected int or str for tree index.",
leaving the tree unchanged; the store is never consulted (neither operation
takes the store at all). -/
theorem C10_tree_key_type_error (t : GitTree) (ty : String) :
    Tree_getitem t (.other ty)
        = .error (.typeError "Expected int or str for tree index.")
    ∧ Tree_delitem t (.other ty) none
        = (some (.typeError "Expected int or str for tree index."), t) :=
  ⟨rfl, rfl⟩

/-- C8: assigning any value into the tree via mutation syntax
(`mp_ass_subscript` with a non-NULL value) fails with a `ValueError` and
leaves the tree unchanged, for every key and value. -/
theorem C8_tree_assignment_rejected (t : GitTree) (key : PyValue) (v : PyValue) :
    Tree_delitem t key (some v)
      = (some (.valueError "Cannot set TreeEntry directly; use add_entry."), t) :=
  rfl

/-- Removal by name fails exactly when no entry has the name. -/
theorem removeEntryByName_none_iff (s : String) : ∀ (l : List GitTreeEntry),
    removeEntryByName l s = none ↔ ∀ e ∈ l, ¬(e.name = s) := by
  intro l
  induction l with
  | nil => simp [removeEntryByName]
  | cons e rest ih =>
    unfold removeEntryByName
    by_cases he : (e.name == s) = true
    · rw [if_pos he]
      constructor
      · intro h
        exact Option.noConfusion h
      · intro h
        exact absurd (eq_of_beq he) (h e (by simp))
    · rw [if_neg he]
      rw [Option.map_eq_none', ih]
      constructor
      · intro h e' he'
        rcases List.mem_cons.mp he' with rfl | he'
        · intro hn
          exact he (beq_iff_eq.mpr hn)
        · exact h e' he'
      · intro h e' he'
        exact h e' (by simp [he'])

/-- Removal by name removes exactly one entry. -/
theorem removeEntryByName_length (s : String) : ∀ (l l' : List GitTreeEntry),
    removeEntryByName l s = some l' → l'.length + 1 = l.length := by
  intro l
  induction l with
  | nil =>
    intro l' h
    exact Option.noConfusion h
  | cons e rest ih =>
    intro l' h
    unfold removeEntryByName at h
    by_cases he : (e.name == s) = true
    · rw [if_pos he] at h
      injection h with h
      subst h
      simp
    · rw [if_neg he] at h
      cases hr : removeEntryByName rest s with
      | none =>
        rw [hr] at h
        exact Option.noConfusion h
      | some l0 =>
        rw [hr] at h
        dsimp only [Option.map] at h
        injection h with h
        subst h
        simp only [List.length_cons, ih l0 hr]

/-- Removal by name decrements the count of matching entries by exactly
one. -/
theorem removeEntryByName_countP (s : String) : ∀ (l l' : List GitTreeEntry),
    removeEntryByName l s = some l' →
    l'.countP (fun e => e.name == s) + 1 = l.countP (fun e => e.name == s) := by
  intro l
  induction l with
  | nil =>
    intro l' h
    exact Option.noConfusion h
  | cons e rest ih =>
    intro l' h
    unfold removeEntryByName at h
    by_cases he : (e.name == s) = true
    · rw [if_pos he] at h
      injection h with h
      subst h
      simp [List.countP_cons, he]
    · rw [if_neg he] at h
      cases hr : removeEntryByName rest s with
      | none =>
        rw [hr] at h
        exact Option.noConfusion h
      | some l0 =>
        rw [hr] at h
        dsimp only [Option.map] at h
        injection h with h
        subst h
        simp only [List.countP_cons, he, if_false, Nat.add_zero, cond_false]
        have hb : (e.name == s) = false := by
          simp only [Bool.not_eq_true] at he
          exact he
        simp [hb]
        exact ih l0 hr

/-- C6: deletion resolves its key exactly like indexing, with identical
failure semantics; a successful delete by name removes exactly one matching
entry and decrements the length by exactly one; deleting an absent name
fails `KeyError` and leaves the tree unchanged. -/
theorem C6_delete_semantics (t : GitTree) :
    (∀ key, (Tree_delitem t key none).1 = errOf (Tree_getitem t key))
    ∧ (∀ s, (∃ e ∈ t.entries, e.name = s) →
        (Tree_delitem t (.str s) none).1 = none
        ∧ (Tree_delitem t (.str s) none).2.entries.length + 1 = t.entries.length
        ∧ (Tree_delitem t (.str s) none).2.entries.countP (fun e => e.name == s) + 1
            = t.entries.countP (fun e => e.name == s))
    ∧ (∀ s, (¬∃ e ∈ t.entries, e.name = s) →
        Tree_delitem t (.str s) none = (some (.keyError (.str s)), t)) := by
  have hrem_none : ∀ s, (¬∃ e ∈ t.entries, e.name = s) →
      removeEntryByName t.entries s = none := by
    intro s hs
    rw [removeEntryByName_none_iff]
    intro e he hn
    exact hs ⟨e, he, hn⟩
  have hrem_some : ∀ s, (∃ e ∈ t.entries, e.name = s) →
      ∃ l', removeEntryByName t.entries s = some l' := by
    intro s hs
    cases hr : removeEntryByName t.entries s with
    | none =>
      obtain ⟨e, he, hn⟩ := hs
      exact absurd hn ((removeEntryByName_none_iff s t.entries).mp hr e he)
    | some l' => exact ⟨l', rfl⟩
  refine ⟨?_, ?_, ?_⟩
  · intro key
    cases key with
    | str s =>
      show (Tree_delitem_by_name t s).1 = errOf (Tree_getitem_by_name t s)
      unfold Tree_delitem_by_name Tree_getitem_by_name git_tree_remove_entry_byname
      cases hr : removeEntryByName t.entries s with
      | none =>
        have hfind : git_tree_entry_byname t s = none := by
          unfold git_tree_entry_byname
          rw [List.find?_eq_none]
          intro e he
          have := (removeEntryByName_none_iff s t.entries).mp hr e he
          simp only [beq_iff_eq]
          exact this
        rw [hfind]
        rfl
      | some l' =>
        cases hfind : git_tree_entry_byname t s with
        | none =>
          exfalso
          unfold git_tree_entry_byname at hfind
          rw [List.find?_eq_none] at hfind
          have : removeEntryByName t.entries s = none := by
            rw [removeEntryByName_none_iff]
            intro e he hn
            exact hfind e he (beq_iff_eq.mpr hn)
          rw [this] at hr
          exact Option.noConfusion hr
        | some e =>
          rfl
    | int i =>
      show (Tree_delitem_by_index t i).1 = errOf (Tree_getitem_by_index t i)
      unfold Tree_delitem_by_index Tree_getitem_by_index
      cases hfix : Tree_fix_index t i with
      | error e =>
        rfl
      | ok j =>
        obtain ⟨hj0, hjlen⟩ := Tree_fix_index_ok_range t i j hfix
        dsimp only
        rw [git_tree_entry_byindex_ok t j hj0 hjlen]
        unfold git_tree_remove_entry_byindex
        rw [if_pos ⟨hj0, hjlen⟩]
        rfl
    | other ty => rfl
  · intro s hs
    obtain ⟨l', hr⟩ := hrem_some s hs
    have hd : Tree_delitem t (.str s) none = (none, ⟨l'⟩) := by
      show Tree_delitem_by_name t s = _
      unfold Tree_delitem_by_name git_tree_remove_entry_byname
      rw [hr]
      rfl
    rw [hd]
    exact ⟨rfl, removeEntryByName_length s t.entries l' hr,
      removeEntryByName_countP s t.entries l' hr⟩
  · intro s hs
    show Tree_delitem_by_name t s = _
    unfold Tree_delitem_by_name git_tree_remove_entry_byname
    rw [hrem_none s hs]
    rfl

/-- Witness for C6 on `sampleTree`: deleting `"b"` succeeds and shrinks the
tree from three entries to two; deleting `"zz"` fails `KeyError`. -/
theorem C6_delete_semantics_witness :
    ((Tree_delitem sampleTree (.str "b") none).1 = none
      ∧ (Tree_delitem sampleTree (.str "b") none).2.entries.length + 1
          = sampleTree.entries.length)
    ∧ Tree_delitem sampleTree (.str "zz") none
        = (some (.keyError (.str "zz")), sampleTree) :=
  ⟨⟨((C6_delete_semantics sampleTree).2.1 "b" (by decide)).1,
    ((C6_delete_semantics sampleTree).2.1 "b" (by decide)).2.1⟩,
   (C6_delete_semantics sampleTree).2.2 "zz" (by decide)⟩

/-- C7: `add_entry` parses its identifier text before touching the tree —
on malformed text it fails with the `InvalidIdentifier` value error and the
tree is returned exactly as it was; more generally, every failing
`add_entry` or delete/assignment leaves the tree unchanged. -/
theorem C7_add_entry_atomic (t : GitTree) :
    (∀ (s name : String) (attributes : Int),
      ¬(s.data.length = 40 ∧ ∀ c ∈ s.data, (hexDigitVal c).isSome) →
      Tree_add_entry t (.str s) name attributes
        = (some (.valueError ("Invalid hex SHA: " ++ pyStrRepr s)), t))
    ∧ (∀ (v : PyValue) (name : String) (attributes : Int),
        (Tree_add_entry t v name attributes).1.isSome →
        (Tree_add_entry t v name attributes).2 = t)
    ∧ (∀ (key : PyValue) (v : Option PyValue),
        (Tree_delitem t key v).1.isSome → (Tree_delitem t key v).2 = t) := by
  refine ⟨?_, ?_, ?_⟩
  · intro s name attributes hbad
    unfold Tree_add_entry py_str_to_git_oid
    dsimp only
    rw [git_oid_mkstr_err s hbad]
    rfl
  · intro v name attributes
    unfold Tree_add_entry
    cases hp : py_str_to_git_oid v with
    | error e =>
      intro _
      rfl
    | ok oid =>
      intro h
      exact absurd h (by simp)
  · intro key v
    cases v with
    | some _ =>
      intro _
      rfl
    | none =>
      cases key with
      | str s =>
        show (Tree_delitem_by_name t s).1.isSome → (Tree_delitem_by_name t s).2 = t
        unfold Tree_delitem_by_name
        cases hr : git_tree_remove_entry_byname t s with
        | none =>
          intro _
          rfl
        | some t' =>
          intro h
          exact absurd h (by simp)
      | int i =>
        show (Tree_delitem_by_index t i).1.isSome → (Tree_delitem_by_index t i).2 = t
        unfold Tree_delitem_by_index
        cases hfix : Tree_fix_index t i with
        | error e =>
          intro _
          rfl
        | ok j =>
          obtain ⟨hj0, hjlen⟩ := Tree_fix_index_ok_range t i j hfix
          dsimp only
          unfold git_tree_remove_entry_byindex
          rw [if_pos ⟨hj0, hjlen⟩]
          intro h
          exact absurd h (by simp)
      | other ty =>
        intro _
        rfl

/-- Witness for C7: adding an entry under the malformed identifier `"zz"`
fails with the value error and returns `sampleTree` unchanged. -/
theorem C7_add_entry_atomic_witness :
    Tree_add_entry sampleTree (.str "zz") "file.txt" 33188
      = (some (.valueError ("Invalid hex SHA: " ++ pyStrRepr "zz")), sampleTree) :=
  (C7_add_entry_atomic sampleTree).1 "zz" "file.txt" 33188 (by decide)

/-- C4: looking up a well-formed identifier that names no object fails
`KeyError` carrying exactly the original lookup text; a hit is returned as
a Borrowed wrapper (`own_obj = false`). -/
theorem C4_lookup_notfound_borrowed (repo : GitOdb) (s : String) (oid : GitOid)
    (hparse : git_oid_mkstr s = .ok oid) :
    (git_repository_lookup repo oid = none →
      Repository_getitem repo (.str s) = .error (.keyError (.str s)))
    ∧ (∀ raw, git_repository_lookup repo oid = some raw →
      Repository_getitem repo (.str s) = .ok ⟨raw.rtype, some oid, false⟩) := by
  constructor
  · intro hlook
    unfold Repository_getitem
    dsimp only [py_str_to_git_oid]
    rw [hparse]
    dsimp only
    rw [hlook]
    rfl
  · intro raw hlook
    unfold Repository_getitem
    dsimp only [py_str_to_git_oid]
    rw [hparse]
    dsimp only
    rw [hlook]

/-- Witness for C4: looking `sampleHexLower` up in the empty store fails
`KeyError` keyed by `sampleHexLower` itself. -/
theorem C4_lookup_notfound_borrowed_witness :
    Repository_getitem emptyOdb (.str sampleHexLower)
      = .error (.keyError (.str sampleHexLower)) :=
  (C4_lookup_notfound_borrowed emptyOdb sampleHexLower
    ⟨List.replicate 20 170⟩ (by rfl)).1 (by rfl)

/-- C5: `identifier()` (the sha) is None exactly for an Owned, never-written
object; `read_raw()` returns None exactly for such an object, and otherwise
delegates to the Repository's raw read at this object's identifier. -/
theorem C5_identifier_read_raw (repo : GitOdb) (h : ObjHistory) :
    (Object_get_sha h = none ↔ (objIsOwned h = true ∧ neverWritten h = true))
    ∧ (Object_read_raw repo h = .ok none
        ↔ (objIsOwned h = true ∧ neverWritten h = true))
    ∧ (∀ oid, git_object_id h = some oid →
        Object_read_raw repo h =
          match Repository_read_raw repo oid with
          | .error e => .error (Error_set_py_str e (.str (git_oid_fmt oid)))
          | .ok raw => .ok (some raw.data)) := by
  cases h with
  | fresh ty =>
    refine ⟨by simp [Object_get_sha, git_object_id, objIsOwned, neverWritten], ?_, ?_⟩
    · constructor
      · intro _
        exact ⟨rfl, rfl⟩
      · intro _
        rfl
    · intro oid hid
      exact Option.noConfusion hid
  | fromLookup oid0 ty =>
    refine ⟨by simp [Object_get_sha, git_object_id, objIsOwned, neverWritten], ?_, ?_⟩
    · constructor
      · intro heq
        exfalso
        unfold Object_read_raw git_object_id at heq
        dsimp only at heq
        cases hr : Repository_read_raw repo oid0 with
        | error e =>
          rw [hr] at heq
          exact Except.noConfusion heq
        | ok raw =>
          rw [hr] at heq
          dsimp only at heq
          injection heq with heq
          exact Option.noConfusion heq
      · intro hcon
        exact absurd hcon.1 (by simp [objIsOwned])
    · intro oid hid
      injection hid with hid
      subst hid
      rfl
  | afterWrite h0 oid0 =>
    refine ⟨by simp [Object_get_sha, git_object_id, neverWritten], ?_, ?_⟩
    · constructor
      · intro heq
        exfalso
        unfold Object_read_raw git_object_id at heq
        dsimp only at heq
        cases hr : Repository_read_raw repo oid0 with
        | error e =>
          rw [hr] at heq
          exact Except.noConfusion heq
        | ok raw =>
          rw [hr] at heq
          dsimp only at heq
          injection heq with heq
          exact Option.noConfusion heq
      · intro hcon
        exact absurd hcon.2 (by simp [neverWritten])
    · intro oid hid
      injection hid with hid
      subst hid
      rfl

/-- Witness for C5: a freshly constructed (Owned, never-written) blob has
sha None and reads back None. -/
theorem C5_identifier_read_raw_witness :
    Object_get_sha (.fresh .blob) = none
    ∧ Object_read_raw emptyOdb (.fresh .blob) = .ok none :=
  ⟨(C5_identifier_read_raw emptyOdb (.fresh .blob)).1.mpr ⟨rfl, rfl⟩,
   (C5_identifier_read_raw emptyOdb (.fresh .blob)).2.1.mpr ⟨rfl, rfl⟩⟩

/-- C9: a fresh Tag has no target and no target type; a successful
`set_target` with an Object makes `target_type` the target's own type,
stores the new reference (releasing the previous one and retaining the new,
as the emitted refcount operations show), and a non-Object argument is
rejected with a `TypeError`. -/
theorem C9_tag_target (self : PyTag) :
    (Tag_get_target Tag_new = none ∧ Tag_get_target_type Tag_new = none)
    ∧ (∀ (o : GitObjRef) (t : PyTag) (ops : List RcOp),
        Tag_set_target self (.obj o) = .ok (t, ops) →
        Tag_get_target_type t = some o.otype
        ∧ t.target = some o
        ∧ t.tag = git_tag_set_target self.tag o
        ∧ ops = (match self.target with
                 | none => []
                 | some old => [RcOp.decref old]) ++ [RcOp.incref o])
    ∧ (∀ ty, Tag_set_target self (.nonObj ty)
        = .error (.typeError ("target must be pygit2.Object, not " ++ ty))) := by
  refine ⟨⟨rfl, rfl⟩, ?_, fun ty => rfl⟩
  intro o t ops hset
  unfold Tag_set_target at hset
  injection hset with hset
  injection hset with h1 h2
  subst h1
  subst h2
  exact ⟨rfl, rfl, rfl, rfl⟩

/-- Witness for C9: setting a fresh tag's target to a blob object makes its
target type blob. -/
theorem C9_tag_target_witness :
    Tag_get_target_type
        { tag := git_tag_set_target Tag_new.tag ⟨GitOtype.blob, none⟩,
          target := some ⟨GitOtype.blob, none⟩ }
      = some GitOtype.blob :=
  ((C9_tag_target Tag_new).2.1 ⟨GitOtype.blob, none⟩ _
    [RcOp.incref ⟨GitOtype.blob, none⟩] rfl).1

end Pygit2
